import Mathlib

/-!
Verification of the Rivine host contract-revision protocol, the consensus
transaction-balance validator, and the host-database scanner, as a shallow
embedding of the Go sources.

Machine integers of the source (`uint64` / `types.BlockHeight`) are modelled
as `Nat` with explicit wrap-around (`% 2^64`) where the Go code can overflow;
`types.Currency` (an arbitrary-precision non-negative integer) is modelled
as `Nat`.
-/

namespace Rivine

/-- `2^64`, the modulus of Go's `uint64`. -/
def two64 : Nat := 2 ^ 64

/-- Go subtraction on `uint64` values (wrap-around semantics): for
`a, b < 2^64` this is the value of the Go expression `a - b`. -/
def goSub (a b : Nat) : Nat := (a + (two64 - b % two64)) % two64

theorem goSub_eq_sub (a b : Nat) (hba : b ≤ a) (ha : a < two64) :
    goSub a b = a - b := by
  have hb : b % two64 = b := Nat.mod_eq_of_lt (lt_of_le_of_lt hba ha)
  have h2 : (0 : Nat) < two64 := by
    have : (0 : Nat) < 2 ^ 64 := Nat.pos_pow_of_pos 64 (by omega)
    simp only [two64]
    exact this
  have hb2 : b ≤ two64 := le_of_lt (lt_of_le_of_lt hba ha)
  unfold goSub
  rw [hb]
  have hsplit : a + (two64 - b) = two64 + (a - b) := by omega
  rw [hsplit, Nat.add_mod_left]
  exact Nat.mod_eq_of_lt (by omega)

/-! ## Host revision protocol: data model

Embeds the types used by `modules/host/negotiaterevisecontract.go`.
Hashes (`crypto.Hash`), identifiers and unlock hashes are modelled as `Nat`;
sector data (`[]byte`) as `List Nat`. -/

/-- `types.FileContractRevision` (the fields read by the host code).
Proof outputs hold only their `Value` (a `Currency`, modelled as `Nat`);
`UnlockConditions` is modelled by an opaque code, compared through an
abstract hash function `ucHash` mirroring `UnlockConditions.UnlockHash()`. -/
structure FileContractRevision where
  ParentID : Nat
  UnlockConditions : Nat
  NewRevisionNumber : Nat
  NewFileSize : Nat
  NewFileMerkleRoot : Nat
  NewWindowStart : Nat
  NewWindowEnd : Nat
  NewValidProofOutputs : List Nat
  NewMissedProofOutputs : List Nat
  NewUnlockHash : Nat
deriving Repr, DecidableEq, Inhabited

/-- `types.Transaction` (the fields used by the revision loop): the contained
file-contract revisions and transaction signatures (signatures as opaque
codes). -/
structure Transaction where
  FileContractRevisions : List FileContractRevision
  TransactionSignatures : List Nat
deriving Repr, DecidableEq, Inhabited

/-- The host's `storageObligation` (the fields used by the revision loop).
`proofDeadline` and `expiration` are method results in the Go code whose
bodies are not under src/; modelled from the spec: `proofDeadline` is the
height of the proof deadline used for `remainingBlocks = proofDeadline −
blockHeight`, and `expiration` is the contract expiration height used by
the lateness check `blockHeight ≤ expiration − revisionSubmissionBuffer`. -/
structure storageObligation where
  SectorRoots : List Nat
  RevisionTransactionSet : List Transaction
  PotentialStorageRevenue : Nat
  PotentialUploadRevenue : Nat
  RiskedCollateral : Nat
  proofDeadline : Nat
  expiration : Nat
deriving Repr, DecidableEq, Inhabited

/-- The revision-action type specifier (`modules.ActionInsert` /
`ActionDelete` / `ActionModify`); `other` stands for any unrecognized
specifier, which hits the `default` branch of the Go switch. -/
inductive ActionType where
  | insert
  | delete
  | modify
  | other
deriving Repr, DecidableEq, Inhabited

/-- `modules.RevisionAction`. -/
structure RevisionAction where
  actionType : ActionType
  SectorIndex : Nat
  Offset : Nat
  Data : List Nat
deriving Repr, DecidableEq, Inhabited

/-- The host's internal settings fields read by the revision loop
(`h.settings`): prices as `Currency` (`Nat`). -/
structure HostInternalSettings where
  MinStoragePrice : Nat
  MinUploadBandwidthPrice : Nat
  Collateral : Nat
deriving Repr, DecidableEq, Inhabited

/-- The typed negotiation-error sentinels of the host package.
`errInternalReadSector` stands for the `ErrorInternal` produced when
`h.ReadSector` fails; `errSignature` for the error of
`createRevisionSignature`. -/
inductive NegError where
  | errBadModificationIndex
  | errLargeSector
  | errBadSectorSize
  | errIllegalOffsetAndLength
  | errUnknownModification
  | errBadContractOutputCounts
  | errLateRevision
  | errBadContractParent
  | errBadUnlockConditions
  | errBadRevisionNumber
  | errBadFileSize
  | errBadWindowStart
  | errBadWindowEnd
  | errBadUnlockHash
  | errHighRenterValidOutput
  | errLowHostValidOutput
  | errHighRenterMissedOutput
  | errLowHostMissedOutput
  | errBadFileMerkleRoot
  | errInternalReadSector
  | errSignature
deriving Repr, DecidableEq, Inhabited

/-- The most recent revision held by the obligation:
`so.RevisionTransactionSet[len(..)-1].FileContractRevisions[0]`.
The Go code indexes unconditionally (it would panic on an empty set); the
totalized model returns the `Inhabited` default there, a case no theorem
below exercises. -/
def oldFCRof (so : storageObligation) : FileContractRevision :=
  (so.RevisionTransactionSet.getLastD default).FileContractRevisions.headD default

/-- The loop `for 1<<k < q: k++` computing `⌈log2 q⌉`
(`log2SectorSize` in `verifyRevision`, with `q = SectorSize/SegmentSize`). -/
def ceilLog2 (q : Nat) : Nat :=
  if h : q ≤ 1 then 0 else ceilLog2 ((q + 1) / 2) + 1
decreasing_by simp only [not_le] at h; omega

/-- `verifyRevision` from `negotiaterevisecontract.go`, check for check in
source order.  Parameters standing for code outside src/:
`rsb` is the constant `revisionSubmissionBuffer`; `sectorSize` is
`modules.SectorSize`; `segmentSize` is `crypto.SegmentSize`; `ucHash`
abstracts `UnlockConditions.UnlockHash()`; `cachedRoot h roots` abstracts
the root of a `crypto.NewCachedTree(h)` after pushing `roots` in order. -/
def verifyRevision (rsb sectorSize segmentSize : Nat) (ucHash : Nat → Nat)
    (cachedRoot : Nat → List Nat → Nat) (so : storageObligation)
    (revision : FileContractRevision) (blockHeight : Nat)
    (newRevenue newCollateral : Nat) : Except NegError Unit :=
  if revision.NewValidProofOutputs.length ≠ 2 ∨
      revision.NewMissedProofOutputs.length ≠ 3 then
    .error .errBadContractOutputCounts
  else if goSub so.expiration rsb ≤ blockHeight then
    .error .errLateRevision
  else if (oldFCRof so).ParentID ≠ revision.ParentID then
    .error .errBadContractParent
  else if ucHash (oldFCRof so).UnlockConditions ≠
      ucHash revision.UnlockConditions then
    .error .errBadUnlockConditions
  else if (oldFCRof so).NewRevisionNumber ≥ revision.NewRevisionNumber then
    .error .errBadRevisionNumber
  else if revision.NewFileSize ≠ (so.SectorRoots.length * sectorSize) % two64 then
    .error .errBadFileSize
  else if (oldFCRof so).NewWindowStart ≠ revision.NewWindowStart then
    .error .errBadWindowStart
  else if (oldFCRof so).NewWindowEnd ≠ revision.NewWindowEnd then
    .error .errBadWindowEnd
  else if (oldFCRof so).NewUnlockHash ≠ revision.NewUnlockHash then
    .error .errBadUnlockHash
  else if revision.NewValidProofOutputs.getD 0 0 + newRevenue >
      (oldFCRof so).NewValidProofOutputs.getD 0 0 then
    .error .errHighRenterValidOutput
  else if (oldFCRof so).NewValidProofOutputs.getD 1 0 + newRevenue <
      revision.NewValidProofOutputs.getD 1 0 then
    .error .errLowHostValidOutput
  else if revision.NewMissedProofOutputs.getD 0 0 + newRevenue >
      (oldFCRof so).NewMissedProofOutputs.getD 0 0 then
    .error .errHighRenterMissedOutput
  else if revision.NewMissedProofOutputs.getD 1 0 + newCollateral <
      (oldFCRof so).NewMissedProofOutputs.getD 1 0 then
    .error .errLowHostMissedOutput
  else if revision.NewFileMerkleRoot ≠
      cachedRoot (ceilLog2 (sectorSize / segmentSize)) so.SectorRoots then
    .error .errBadFileMerkleRoot
  else
    .ok ()

/-- Go's `copy(sector[off:], data)`: overwrite `min(len(data),
len(sector)-off)` bytes of `sector` starting at `off`. -/
def goCopy (sector : List Nat) (off : Nat) (data : List Nat) : List Nat :=
  let n := min data.length (sector.length - off)
  sector.take off ++ data.take n ++ sector.drop (off + n)

/-- The mutable state threaded through the modification loop of
`managedRevisionIteration`: the obligation (whose `SectorRoots` the Go code
mutates in place) and the accumulators declared before the loop. -/
structure ModState where
  so : storageObligation
  bandwidthRevenue : Nat
  storageRevenue : Nat
  newCollateral : Nat
  sectorsRemoved : List Nat
  sectorsGained : List Nat
  gainedSectorData : List (List Nat)
deriving Repr, DecidableEq, Inhabited

/-- The initial `ModState` for an iteration: zero accumulators, empty
gained/removed lists (the `var` declarations before the loop). -/
def initModState (so : storageObligation) : ModState :=
  { so := so, bandwidthRevenue := 0, storageRevenue := 0, newCollateral := 0,
    sectorsRemoved := [], sectorsGained := [], gainedSectorData := [] }

/-- One pass of the modification loop body of `managedRevisionIteration`
(lines 66-133 of `negotiaterevisecontract.go`).  Parameters standing for
code outside src/: `sectorSize` is `modules.SectorSize`; `merkleRoot`
abstracts `crypto.MerkleRoot`; `readSector` abstracts `h.ReadSector`
(`none` = the read fails, yielding an `ErrorInternal`); `blockHeight` is
the host's snapshot `h.blockHeight`. -/
def applyModification (sectorSize : Nat) (settings : HostInternalSettings)
    (blockHeight : Nat) (merkleRoot : List Nat → Nat)
    (readSector : Nat → Option (List Nat)) (st : ModState)
    (m : RevisionAction) : Except NegError ModState :=
  -- Index precondition: inserting is permitted at the end.
  if m.actionType = .insert ∧ m.SectorIndex > st.so.SectorRoots.length then
    .error .errBadModificationIndex
  else if m.actionType ≠ .insert ∧ m.SectorIndex ≥ st.so.SectorRoots.length then
    .error .errBadModificationIndex
  else if m.Data.length > sectorSize then
    .error .errLargeSector
  else
    match m.actionType with
    | .delete =>
        .ok { st with
          sectorsRemoved :=
            st.sectorsRemoved ++ [st.so.SectorRoots.getD m.SectorIndex 0],
          so := { st.so with SectorRoots :=
            st.so.SectorRoots.take m.SectorIndex ++
              st.so.SectorRoots.drop (m.SectorIndex + 1) } }
    | .insert =>
        if m.Data.length ≠ sectorSize then
          .error .errBadSectorSize
        else
          let blocksRemaining := goSub st.so.proofDeadline blockHeight
          let blockBytesCurrency := blocksRemaining * sectorSize
          let newRoot := merkleRoot m.Data
          .ok { st with
            bandwidthRevenue := st.bandwidthRevenue +
              settings.MinUploadBandwidthPrice * sectorSize,
            storageRevenue := st.storageRevenue +
              settings.MinStoragePrice * blockBytesCurrency,
            newCollateral := st.newCollateral +
              settings.Collateral * blockBytesCurrency,
            sectorsGained := st.sectorsGained ++ [newRoot],
            gainedSectorData := st.gainedSectorData ++ [m.Data],
            so := { st.so with SectorRoots :=
              st.so.SectorRoots.take m.SectorIndex ++ newRoot ::
                st.so.SectorRoots.drop m.SectorIndex } }
    | .modify =>
        if m.Offset > sectorSize ∨ m.Offset + m.Data.length > sectorSize then
          .error .errIllegalOffsetAndLength
        else
          match readSector (st.so.SectorRoots.getD m.SectorIndex 0) with
          | none => .error .errInternalReadSector
          | some sector =>
              let sector2 := goCopy sector m.Offset m.Data
              let newRoot := merkleRoot sector2
              .ok { st with
                bandwidthRevenue := st.bandwidthRevenue +
                  settings.MinUploadBandwidthPrice * m.Data.length,
                sectorsRemoved :=
                  st.sectorsRemoved ++ [st.so.SectorRoots.getD m.SectorIndex 0],
                sectorsGained := st.sectorsGained ++ [newRoot],
                gainedSectorData := st.gainedSectorData ++ [sector2],
                so := { st.so with SectorRoots :=
                  st.so.SectorRoots.set m.SectorIndex newRoot } }
    | .other => .error .errUnknownModification

/-- The whole modification loop: left-to-right application with the first
error short-circuiting, each step seeing the sector-root list as updated by
earlier steps. -/
def applyModifications (sectorSize : Nat) (settings : HostInternalSettings)
    (blockHeight : Nat) (merkleRoot : List Nat → Nat)
    (readSector : Nat → Option (List Nat)) (st : ModState) :
    List RevisionAction → Except NegError ModState
  | [] => .ok st
  | m :: ms =>
      match applyModification sectorSize settings blockHeight merkleRoot
          readSector st m with
      | .error e => .error e
      | .ok st2 =>
          applyModifications sectorSize settings blockHeight merkleRoot
            readSector st2 ms

/-- A message the host writes to the connection during the validated part of
a revision iteration. -/
inductive WireMsg where
  | negotiationRejection (e : NegError)
  | negotiationAcceptance
  | negotiationStop
  | signatureMsg (sig : Nat)
deriving Repr, DecidableEq, Inhabited

/-- The arguments of the single durable-state write of a revision iteration,
`h.modifyStorageObligation(*so, sectorsRemoved, sectorsGained,
gainedSectorData)`. -/
structure PersistCall where
  so : storageObligation
  sectorsRemoved : List Nat
  sectorsGained : List Nat
  gainedSectorData : List (List Nat)
deriving Repr, DecidableEq, Inhabited

/-- The observable outcome of the validated part of a revision iteration:
the messages written after the modifications were read, whether and with
what arguments `modifyStorageObligation` was called, and the iteration's
return value. -/
structure IterationOutcome where
  sent : List WireMsg
  persistedCall : Option PersistCall
  result : Except NegError Unit
deriving Repr, Inhabited

/-- The core of `managedRevisionIteration` (lines 56-187 of
`negotiaterevisecontract.go`), from the point where `modifications` and
`revision` have been read off the connection.  Connection I/O failures are
out of the model (each would only truncate `sent`);
`mkSignedTxn` abstracts `createRevisionSignature` (`none` = it returns an
error); `modifyStorageObligation` is modelled as succeeding, its call
recorded in the outcome. -/
def managedRevisionIterationCore (rsb sectorSize segmentSize : Nat)
    (ucHash : Nat → Nat) (merkleRoot : List Nat → Nat)
    (cachedRoot : Nat → List Nat → Nat) (settings : HostInternalSettings)
    (blockHeight : Nat) (readSector : Nat → Option (List Nat))
    (mkSignedTxn : FileContractRevision → Option Transaction)
    (finalIter : Bool) (so : storageObligation)
    (modifications : List RevisionAction)
    (revision : FileContractRevision) : IterationOutcome :=
  match applyModifications sectorSize settings blockHeight merkleRoot
      readSector (initModState so) modifications with
  | .error e =>
      { sent := [.negotiationRejection e], persistedCall := none,
        result := .error e }
  | .ok st =>
      let newRevenue := st.storageRevenue + st.bandwidthRevenue
      match verifyRevision rsb sectorSize segmentSize ucHash cachedRoot
          st.so revision blockHeight newRevenue st.newCollateral with
      | .error e =>
          { sent := [.negotiationRejection e], persistedCall := none,
            result := .error e }
      | .ok _ =>
          match mkSignedTxn revision with
          | none =>
              { sent := [.negotiationAcceptance,
                  .negotiationRejection .errSignature],
                persistedCall := none, result := .error .errSignature }
          | some txn =>
              let so2 : storageObligation := { st.so with
                PotentialStorageRevenue :=
                  st.so.PotentialStorageRevenue + st.storageRevenue,
                RiskedCollateral := st.so.RiskedCollateral + st.newCollateral,
                PotentialUploadRevenue :=
                  st.so.PotentialUploadRevenue + st.bandwidthRevenue,
                RevisionTransactionSet := [txn] }
              { sent := [.negotiationAcceptance,
                  (if finalIter then .negotiationStop
                   else .negotiationAcceptance),
                  .signatureMsg (txn.TransactionSignatures.getD 1 0)],
                persistedCall := some
                  { so := so2, sectorsRemoved := st.sectorsRemoved,
                    sectorsGained := st.sectorsGained,
                    gainedSectorData := st.gainedSectorData },
                result := .ok () }

/-! ## Consensus transaction validation

Embeds `ValidateCoinOutputsAreBalanced` from the consensus validators.
Output IDs are modelled as `Nat`; the consensus read view
`UnspentCoinOutputGet` as a partial map `Nat → Option Nat` from parent ID
to the unspent output's value. -/

namespace Consensus

/-- `types.Transaction` (the fields used by the coin-balance validator):
coin inputs hold their `ParentID`, coin outputs and miner fees their
values. -/
structure Transaction where
  CoinInputs : List Nat
  CoinOutputs : List Nat
  MinerFees : List Nat
deriving Repr, DecidableEq, Inhabited

/-- Modelled from the spec: `tx.CoinOutputSum()` is not under src/; per the
spec it "includes miner fees and all coin outputs". -/
def CoinOutputSum (tx : Transaction) : Nat :=
  tx.CoinOutputs.foldl (· + ·) 0 + tx.MinerFees.foldl (· + ·) 0

/-- The errors `ValidateCoinOutputsAreBalanced` can build, with the data the
Go `fmt.Errorf` calls embed: the unresolved parent ID together with the
context's block height, or the two sums with the direction of the
imbalance. -/
inductive BalanceError where
  | missingParent (parentID : Nat) (blockHeight : Nat)
  | inputsLessThanOutputs (inputSum outputSum : Nat)
  | inputsGreaterThanOutputs (inputSum outputSum : Nat)
deriving Repr, DecidableEq

/-- The input-collection loop of `ValidateCoinOutputsAreBalanced`: resolve
each parent through the consensus view, accumulating the sum, the first
unresolved parent short-circuiting. -/
def coinInputSumLoop (css : Nat → Option Nat) (blockHeight : Nat) :
    List Nat → Nat → Except BalanceError Nat
  | [], acc => .ok acc
  | pid :: rest, acc =>
      match css pid with
      | none => .error (.missingParent pid blockHeight)
      | some v => coinInputSumLoop css blockHeight rest (acc + v)

/-- `ValidateCoinOutputsAreBalanced` from the consensus validators:
resolve every coin input's parent, then require the input sum to equal
`tx.CoinOutputSum()`. -/
def ValidateCoinOutputsAreBalanced (tx : Transaction) (blockHeight : Nat)
    (css : Nat → Option Nat) : Except BalanceError Unit :=
  match coinInputSumLoop css blockHeight tx.CoinInputs 0 with
  | .error e => .error e
  | .ok coinInputSum =>
      let coinOutputSum := CoinOutputSum tx
      if coinInputSum < coinOutputSum then
        .error (.inputsLessThanOutputs coinInputSum coinOutputSum)
      else if coinInputSum > coinOutputSum then
        .error (.inputsGreaterThanOutputs coinInputSum coinOutputSum)
      else
        .ok ()

/-- The sum of the resolved values of a list of coin-input parents
(meaningful when every parent resolves). -/
def resolvedInputSum (css : Nat → Option Nat) (inputs : List Nat) : Nat :=
  inputs.foldl (fun acc pid => acc + (css pid).getD 0) 0

end Consensus

/-! ## Host database scanner and weighting

Embeds `modules/renter/hostdb/scan.go` and `calculateHostWeight`.
Network addresses are modelled as `Nat`, public keys as `List Nat` (the raw
key bytes compared by `bytes.Equal`).  The Go maps `allHosts` and
`activeHosts` hold pointers to shared `hostEntry` records; the model keys
both by network address and keeps the entry data in the association lists,
which coincides with the Go behaviour whenever the pointer stored for an
address is the one being probed (the scan loop only enqueues pointers taken
from these maps). -/

namespace Hostdb

/-- `modules.HostExternalSettings` (the fields the hostdb reads): the
address and the price vector, prices as `Currency` (`Nat`). -/
structure HostExternalSettings where
  NetAddress : Nat
  StoragePrice : Nat
  ContractPrice : Nat
  UploadBandwidthPrice : Nat
  DownloadBandwidthPrice : Nat
  Collateral : Nat
deriving Repr, DecidableEq, Inhabited

/-- The hostdb's `hostEntry`: embedded external settings, the announced
public key, reliability, weight and online flag. -/
structure hostEntry where
  HostExternalSettings : HostExternalSettings
  PublicKey : List Nat
  Reliability : Nat
  Weight : Nat
  Online : Bool
deriving Repr, DecidableEq, Inhabited

/-- The embedded-field access `entry.NetAddress`. -/
def hostEntry.NetAddress (e : hostEntry) : Nat := e.HostExternalSettings.NetAddress

/-- `MaxReliability = types.NewCurrency64(500)`. -/
def MaxReliability : Nat := 500

/-- `UnreachablePenalty = types.NewCurrency64(1)`. -/
def UnreachablePenalty : Nat := 1

/-- `maxActiveHosts = 500`. -/
def maxActiveHosts : Nat := 500

/-- `baseWeight = 10^150`. -/
def baseWeight : Nat := 10 ^ 150

/-- Modelled from the spec: `types.Currency.MulTax` is not under src/; per
the spec it is "a fixed-denominator multiply" by the tax rate
(`fee = ... × taxRate`).  The Sia-lineage rate 39/1000 is used, with the
floor of `Currency`'s integer division. -/
def mulTax (c : Nat) : Nat := c * 39 / 1000

/-- The `totalPrice` computed inside `calculateHostWeight`: storage price
plus the adjusted contract/upload/download prices plus the tax fee on those
adjusted prices and the collateral. -/
def totalPrice (e : hostEntry) : Nat :=
  let adjustedContractPrice :=
    e.HostExternalSettings.ContractPrice / 6048 / 10000000000
  let adjustedUploadPrice := e.HostExternalSettings.UploadBandwidthPrice / 24192
  let adjustedDownloadPrice :=
    e.HostExternalSettings.DownloadBandwidthPrice / 12096
  let siafundFee := mulTax (adjustedContractPrice + adjustedUploadPrice +
    adjustedDownloadPrice + e.HostExternalSettings.Collateral)
  e.HostExternalSettings.StoragePrice + adjustedContractPrice +
    adjustedUploadPrice + adjustedDownloadPrice + siafundFee

/-- `calculateHostWeight` from the hostdb: base weight divided five times by
the total price (skipped when the total price is zero), then multiplied by
the collateral when the collateral is non-zero. -/
def calculateHostWeight (e : hostEntry) : Nat :=
  let weight :=
    if totalPrice e = 0 then baseWeight
    else baseWeight / totalPrice e / totalPrice e / totalPrice e /
      totalPrice e / totalPrice e
  if e.HostExternalSettings.Collateral = 0 then weight
  else weight * e.HostExternalSettings.Collateral

/-- Association-list lookup keyed by network address (a Go map read). -/
def lookupA (m : List (Nat × hostEntry)) (a : Nat) : Option hostEntry :=
  (m.find? (fun p => p.1 = a)).map (·.2)

/-- Association-list removal (a Go map `delete`). -/
def eraseA (m : List (Nat × hostEntry)) (a : Nat) : List (Nat × hostEntry) :=
  m.filter (fun p => p.1 ≠ a)

/-- Association-list write (a Go map assignment). -/
def insertA (m : List (Nat × hostEntry)) (a : Nat) (e : hostEntry) :
    List (Nat × hostEntry) :=
  (a, e) :: eraseA m a

/-- The hostdb state the scanner mutates: `allHosts` and the
`activeHosts` map backing the weighted tree. -/
structure HostDB where
  allHosts : List (Nat × hostEntry)
  activeHosts : List (Nat × hostEntry)
deriving Repr, DecidableEq, Inhabited

/-- `decrementReliability` from `scan.go`: decrement the looked-up entry's
reliability (a `Currency` subtraction, non-negative) and mark it offline,
remove it from `activeHosts`, and delete it from `allHosts` when the
reliability reaches zero. -/
def decrementReliability (db : HostDB) (addr : Nat) (penalty : Nat) : HostDB :=
  match lookupA db.allHosts addr with
  | none => db
  | some entry =>
      let entry2 : hostEntry :=
        { entry with
          Reliability := entry.Reliability - penalty,
          Online := false }
      let all2 := insertA db.allHosts addr entry2
      let active2 := eraseA db.activeHosts addr
      if entry2.Reliability = 0 then
        { allHosts := eraseA all2 addr, activeHosts := active2 }
      else
        { allHosts := all2, activeHosts := active2 }

/-- `managedUpdateEntry` from `scan.go`: the probed entry is added to
`allHosts` when absent; a failed probe applies the unreachable penalty only
when a prior entry existed with byte-equal public key; a successful probe
removes the host's node, installs the new settings (preserving the recorded
address), resets reliability to `MaxReliability`, recomputes the weight,
marks the entry online, and re-inserts it into `activeHosts` when the cap
`maxActiveHosts` has not been reached.  `probeFailed` is `netErr != nil`. -/
def managedUpdateEntry (db : HostDB) (entry : hostEntry)
    (newSettings : HostExternalSettings) (probeFailed : Bool) : HostDB :=
  let prior := lookupA db.allHosts entry.NetAddress
  let db1 : HostDB :=
    match prior with
    | some _ => db
    | none => { db with allHosts := insertA db.allHosts entry.NetAddress entry }
  if probeFailed then
    match prior with
    | some priorHost =>
        if priorHost.PublicKey = entry.PublicKey then
          decrementReliability db1 entry.NetAddress UnreachablePenalty
        else db1
    | none => db1
  else
    let active1 := eraseA db1.activeHosts entry.NetAddress
    let settings2 : HostExternalSettings :=
      { newSettings with NetAddress := entry.HostExternalSettings.NetAddress }
    let entry1 : hostEntry :=
      { entry with
        HostExternalSettings := settings2,
        Reliability := MaxReliability,
        Online := true }
    let entry2 : hostEntry := { entry1 with Weight := calculateHostWeight entry1 }
    let all2 := insertA db1.allHosts entry.NetAddress entry2
    let active2 :=
      if active1.length < maxActiveHosts then insertA active1 entry.NetAddress entry2
      else active1
    { allHosts := all2, activeHosts := active2 }

end Hostdb

/-! ## Concrete fixtures for witnesses and counterexamples -/

/-- A previous revision fixture. -/
def fcrOld : FileContractRevision :=
  { ParentID := 1, UnlockConditions := 5, NewRevisionNumber := 5,
    NewFileSize := 0, NewFileMerkleRoot := 0, NewWindowStart := 100,
    NewWindowEnd := 200, NewValidProofOutputs := [50, 50],
    NewMissedProofOutputs := [50, 50, 0], NewUnlockHash := 7 }

/-- An obligation fixture holding `fcrOld` as its latest revision. -/
def soFix : storageObligation :=
  { SectorRoots := [], RevisionTransactionSet := [⟨[fcrOld], []⟩],
    PotentialStorageRevenue := 0, PotentialUploadRevenue := 0,
    RiskedCollateral := 0, proofDeadline := 500, expiration := 1000 }

/-- A proposed revision that changes the window start and does not increase
the revision number. -/
def fcrBadStartStaleNum : FileContractRevision :=
  { fcrOld with NewWindowStart := 101 }

/-! ## C1: order of the verifyRevision predicates -/

/-- C1 counterexample: a proposed revision that changes the window start and
fails to increase the revision number is answered with
`errBadRevisionNumber`, not `errBadWindowStart` — the code checks the
revision number before the window fields, contradicting the claim's order
(invariant fields before revision number). -/
theorem C1_order_counterexample :
    verifyRevision 144 4096 64 id (fun _ _ => 0) soFix fcrBadStartStaleNum
        0 0 0 = .error .errBadRevisionNumber ∧
      NegError.errBadRevisionNumber ≠ NegError.errBadWindowStart := by
  constructor
  · rfl
  · intro h
    exact NegError.noConfusion h

/-- C1 amended: `verifyRevision` checks, in order: output counts, lateness,
parent ID, unlock-conditions hash, revision number, file size, window
start, window end, new unlock hash, the payment inequalities, and the
Merkle root last.  In particular, once the counts, lateness, parent-ID and
unlock-hash checks pass, a revision that fails to increase the revision
number is answered with `errBadRevisionNumber` regardless of its window
start, window end or new unlock hash. -/
theorem C1_order_amended (rsb sectorSize segmentSize : Nat)
    (ucHash : Nat → Nat) (cachedRoot : Nat → List Nat → Nat)
    (so : storageObligation) (revision : FileContractRevision)
    (blockHeight newRevenue newCollateral : Nat)
    (hv : revision.NewValidProofOutputs.length = 2)
    (hm : revision.NewMissedProofOutputs.length = 3)
    (hlate : blockHeight < goSub so.expiration rsb)
    (hpar : (oldFCRof so).ParentID = revision.ParentID)
    (huc : ucHash (oldFCRof so).UnlockConditions =
      ucHash revision.UnlockConditions)
    (hrev : revision.NewRevisionNumber ≤ (oldFCRof so).NewRevisionNumber) :
    verifyRevision rsb sectorSize segmentSize ucHash cachedRoot so revision
      blockHeight newRevenue newCollateral = .error .errBadRevisionNumber := by
  unfold verifyRevision
  rw [if_neg (by simp [hv, hm]), if_neg (by omega), if_neg (by simp [hpar]),
    if_neg (by simp [huc]), if_pos hrev]

/-- C1 amended, witness at a concrete input. -/
theorem C1_order_amended_witness :
    verifyRevision 144 4096 64 id (fun _ _ => 0) soFix fcrBadStartStaleNum
      0 0 0 = .error .errBadRevisionNumber :=
  C1_order_amended 144 4096 64 id (fun _ _ => 0) soFix fcrBadStartStaleNum
    0 0 0 (by decide) (by decide) (by decide) (by decide) (by decide)
    (by decide)

/-! ## C4: the lateness boundary -/

/-- C4 counterexample: at `blockHeight = expiration − revisionSubmissionBuffer`
(here 1000 − 144 = 856) the revision IS rejected with `errLateRevision`,
contradicting the claim that this height still passes the lateness check. -/
theorem C4_lateness_counterexample :
    verifyRevision 144 4096 64 id (fun _ _ => 0) soFix fcrOld 856 0 0 =
      .error .errLateRevision := by
  rfl

/-- C4 amended (matching §8 of the spec): with well-formed output counts and
no `uint64` wrap-around, `verifyRevision` returns `errLateRevision` exactly
when `expiration − revisionSubmissionBuffer ≤ blockHeight`; equivalently,
the lateness check passes exactly when
`blockHeight < expiration − revisionSubmissionBuffer`. -/
theorem C4_lateness_amended (rsb sectorSize segmentSize : Nat)
    (ucHash : Nat → Nat) (cachedRoot : Nat → List Nat → Nat)
    (so : storageObligation) (revision : FileContractRevision)
    (blockHeight newRevenue newCollateral : Nat)
    (hv : revision.NewValidProofOutputs.length = 2)
    (hm : revision.NewMissedProofOutputs.length = 3)
    (hrsb : rsb ≤ so.expiration) (hexp : so.expiration < two64) :
    verifyRevision rsb sectorSize segmentSize ucHash cachedRoot so revision
        blockHeight newRevenue newCollateral = .error .errLateRevision ↔
      so.expiration - rsb ≤ blockHeight := by
  unfold verifyRevision
  rw [if_neg (by simp [hv, hm]), goSub_eq_sub so.expiration rsb hrsb hexp]
  constructor
  · intro hc
    by_contra hbh
    rw [if_neg hbh] at hc
    by_cases h1 : (oldFCRof so).ParentID ≠ revision.ParentID
    · rw [if_pos h1] at hc; exact NegError.noConfusion (Except.error.inj hc)
    rw [if_neg h1] at hc
    by_cases h2 : ucHash (oldFCRof so).UnlockConditions ≠
      ucHash revision.UnlockConditions
    · rw [if_pos h2] at hc; exact NegError.noConfusion (Except.error.inj hc)
    rw [if_neg h2] at hc
    by_cases h3 : (oldFCRof so).NewRevisionNumber ≥ revision.NewRevisionNumber
    · rw [if_pos h3] at hc; exact NegError.noConfusion (Except.error.inj hc)
    rw [if_neg h3] at hc
    by_cases h4 : revision.NewFileSize ≠
      (so.SectorRoots.length * sectorSize) % two64
    · rw [if_pos h4] at hc; exact NegError.noConfusion (Except.error.inj hc)
    rw [if_neg h4] at hc
    by_cases h5 : (oldFCRof so).NewWindowStart ≠ revision.NewWindowStart
    · rw [if_pos h5] at hc; exact NegError.noConfusion (Except.error.inj hc)
    rw [if_neg h5] at hc
    by_cases h6 : (oldFCRof so).NewWindowEnd ≠ revision.NewWindowEnd
    · rw [if_pos h6] at hc; exact NegError.noConfusion (Except.error.inj hc)
    rw [if_neg h6] at hc
    by_cases h7 : (oldFCRof so).NewUnlockHash ≠ revision.NewUnlockHash
    · rw [if_pos h7] at hc; exact NegError.noConfusion (Except.error.inj hc)
    rw [if_neg h7] at hc
    by_cases h8 : revision.NewValidProofOutputs.getD 0 0 + newRevenue >
      (oldFCRof so).NewValidProofOutputs.getD 0 0
    · rw [if_pos h8] at hc; exact NegError.noConfusion (Except.error.inj hc)
    rw [if_neg h8] at hc
    by_cases h9 : (oldFCRof so).NewValidProofOutputs.getD 1 0 + newRevenue <
      revision.NewValidProofOutputs.getD 1 0
    · rw [if_pos h9] at hc; exact NegError.noConfusion (Except.error.inj hc)
    rw [if_neg h9] at hc
    by_cases h10 : revision.NewMissedProofOutputs.getD 0 0 + newRevenue >
      (oldFCRof so).NewMissedProofOutputs.getD 0 0
    · rw [if_pos h10] at hc; exact NegError.noConfusion (Except.error.inj hc)
    rw [if_neg h10] at hc
    by_cases h11 : revision.NewMissedProofOutputs.getD 1 0 + newCollateral <
      (oldFCRof so).NewMissedProofOutputs.getD 1 0
    · rw [if_pos h11] at hc; exact NegError.noConfusion (Except.error.inj hc)
    rw [if_neg h11] at hc
    by_cases h12 : revision.NewFileMerkleRoot ≠
      cachedRoot (ceilLog2 (sectorSize / segmentSize)) so.SectorRoots
    · rw [if_pos h12] at hc; exact NegError.noConfusion (Except.error.inj hc)
    rw [if_neg h12] at hc
    exact Except.noConfusion hc
  · intro h
    rw [if_pos h]

/-- C4 amended, witness at a concrete input. -/
theorem C4_lateness_amended_witness :
    verifyRevision 144 4096 64 id (fun _ _ => 0) soFix fcrOld 900 0 0 =
      .error .errLateRevision :=
  (C4_lateness_amended 144 4096 64 id (fun _ _ => 0) soFix fcrOld 900 0 0
    (by decide) (by decide) (by decide) (by decide)).mpr (by decide)

/-! ## C3: finances of a single insert -/

/-- C3: for an obligation starting with zero sectors, a single `Insert` of a
`SectorSize`-byte sector accumulates exactly
`storageRevenue = MinStoragePrice × remainingBlocks × SectorSize`,
`bandwidthRevenue = MinUploadBandwidthPrice × SectorSize` and
`newCollateral = Collateral × remainingBlocks × SectorSize`, with
`remainingBlocks = proofDeadline − blockHeight`. -/
theorem C3_insert_finances (sectorSize : Nat) (settings : HostInternalSettings)
    (blockHeight : Nat) (merkleRoot : List Nat → Nat)
    (readSector : Nat → Option (List Nat)) (so : storageObligation)
    (data : List Nat)
    (hroots : so.SectorRoots = [])
    (hdata : data.length = sectorSize)
    (hbh : blockHeight ≤ so.proofDeadline)
    (hpd : so.proofDeadline < two64) :
    applyModifications sectorSize settings blockHeight merkleRoot readSector
        (initModState so) [⟨.insert, 0, 0, data⟩] =
      .ok { so := { so with SectorRoots := [merkleRoot data] },
            bandwidthRevenue := settings.MinUploadBandwidthPrice * sectorSize,
            storageRevenue := settings.MinStoragePrice *
              ((so.proofDeadline - blockHeight) * sectorSize),
            newCollateral := settings.Collateral *
              ((so.proofDeadline - blockHeight) * sectorSize),
            sectorsRemoved := [], sectorsGained := [merkleRoot data],
            gainedSectorData := [data] } := by
  simp [applyModifications, applyModification, initModState, hroots, hdata,
    goSub_eq_sub so.proofDeadline blockHeight hbh hpd]

/-- An obligation fixture with 100 blocks remaining before the proof
deadline at block height 0. -/
def soC3 : storageObligation :=
  { SectorRoots := [], RevisionTransactionSet := [⟨[fcrOld], []⟩],
    PotentialStorageRevenue := 0, PotentialUploadRevenue := 0,
    RiskedCollateral := 0, proofDeadline := 100, expiration := 1000 }

/-- C3, witness: the spec's end-to-end scenario with `SectorSize = 4096`,
`MinStoragePrice = 2`, `MinUploadBandwidthPrice = 3`, `Collateral = 1`,
`remainingBlocks = 100` yields 819200 / 12288 / 409600. -/
theorem C3_insert_finances_witness :
    applyModifications 4096 ⟨2, 3, 1⟩ 0 (fun _ => 42) (fun _ => none)
        (initModState soC3) [⟨.insert, 0, 0, List.replicate 4096 0⟩] =
      .ok { so := { soC3 with SectorRoots := [42] },
            bandwidthRevenue := 12288, storageRevenue := 819200,
            newCollateral := 409600, sectorsRemoved := [],
            sectorsGained := [42],
            gainedSectorData := [List.replicate 4096 0] } := by
  have h := C3_insert_finances 4096 ⟨2, 3, 1⟩ 0 (fun _ => 42) (fun _ => none)
    soC3 (List.replicate 4096 0) rfl (by rw [List.length_replicate])
    (Nat.zero_le _) (by decide)
  rw [h]
  rfl

/-! ## C7: the modification index precondition -/

/-- C7: the batch is applied left to right with the index precondition
checked against the working sector-root list (first conjunct: the batch
decomposes around any modification into applying the earlier ones first);
a modification fails with `errBadModificationIndex` exactly when it is an
`Insert` with index beyond `len(sectorRoots)` or a non-insert with index
not below `len(sectorRoots)` (second conjunct); an `Insert` at exactly
`len(sectorRoots)` with a `SectorSize`-byte sector succeeds (third
conjunct). -/
theorem C7_index_precondition (sectorSize : Nat)
    (settings : HostInternalSettings) (blockHeight : Nat)
    (merkleRoot : List Nat → Nat) (readSector : Nat → Option (List Nat)) :
    (∀ (st : ModState) (ms₁ ms₂ : List RevisionAction) (m : RevisionAction),
      applyModifications sectorSize settings blockHeight merkleRoot readSector
          st (ms₁ ++ m :: ms₂) =
        match applyModifications sectorSize settings blockHeight merkleRoot
            readSector st ms₁ with
        | .error e => .error e
        | .ok st2 =>
            match applyModification sectorSize settings blockHeight merkleRoot
                readSector st2 m with
            | .error e => .error e
            | .ok st3 =>
                applyModifications sectorSize settings blockHeight merkleRoot
                  readSector st3 ms₂) ∧
    (∀ (st : ModState) (m : RevisionAction),
      applyModification sectorSize settings blockHeight merkleRoot readSector
          st m = .error .errBadModificationIndex ↔
        ¬ ((m.actionType = .insert ∧
              m.SectorIndex ≤ st.so.SectorRoots.length) ∨
           (m.actionType ≠ .insert ∧
              m.SectorIndex < st.so.SectorRoots.length))) ∧
    (∀ (st : ModState) (m : RevisionAction),
      m.actionType = .insert → m.SectorIndex = st.so.SectorRoots.length →
      m.Data.length = sectorSize →
      ∃ st2, applyModification sectorSize settings blockHeight merkleRoot
        readSector st m = .ok st2) := by
  refine ⟨?_, ?_, ?_⟩
  · intro st ms₁ ms₂ m
    induction ms₁ generalizing st with
    | nil => simp [applyModifications]
    | cons a as ih =>
        simp only [List.cons_append, applyModifications]
        cases applyModification sectorSize settings blockHeight merkleRoot
            readSector st a with
        | error e => rfl
        | ok st2 => exact ih st2
  · intro st m
    unfold applyModification
    by_cases hI : m.actionType = .insert ∧
        m.SectorIndex > st.so.SectorRoots.length
    · rw [if_pos hI]
      constructor
      · intro _
        intro hok
        rcases hok with ⟨_, hle⟩ | ⟨hne, _⟩
        · omega
        · exact hne hI.1
      · intro _; rfl
    rw [if_neg hI]
    by_cases hD : m.actionType ≠ .insert ∧
        m.SectorIndex ≥ st.so.SectorRoots.length
    · rw [if_pos hD]
      constructor
      · intro _
        intro hok
        rcases hok with ⟨hins, _⟩ | ⟨_, hlt⟩
        · exact hD.1 hins
        · omega
      · intro _; rfl
    rw [if_neg hD]
    have hok : (m.actionType = .insert ∧
          m.SectorIndex ≤ st.so.SectorRoots.length) ∨
        (m.actionType ≠ .insert ∧
          m.SectorIndex < st.so.SectorRoots.length) := by
      by_cases hins : m.actionType = .insert
      · left
        refine ⟨hins, ?_⟩
        by_contra hgt
        exact hI ⟨hins, by omega⟩
      · right
        refine ⟨hins, ?_⟩
        by_contra hge
        exact hD ⟨hins, by omega⟩
    constructor
    · intro hc
      exfalso
      by_cases hL : m.Data.length > sectorSize
      · rw [if_pos hL] at hc
        exact NegError.noConfusion (Except.error.inj hc)
      rw [if_neg hL] at hc
      cases hA : m.actionType with
      | delete =>
          simp only [hA] at hc
          exact Except.noConfusion hc
      | insert =>
          simp only [hA] at hc
          by_cases hS : m.Data.length ≠ sectorSize
          · rw [if_pos hS] at hc
            exact NegError.noConfusion (Except.error.inj hc)
          · rw [if_neg hS] at hc
            exact Except.noConfusion hc
      | modify =>
          simp only [hA] at hc
          by_cases hO : m.Offset > sectorSize ∨
              m.Offset + m.Data.length > sectorSize
          · rw [if_pos hO] at hc
            exact NegError.noConfusion (Except.error.inj hc)
          · rw [if_neg hO] at hc
            cases hR : readSector (st.so.SectorRoots.getD m.SectorIndex 0) with
            | none =>
                rw [hR] at hc
                exact NegError.noConfusion (Except.error.inj hc)
            | some sector =>
                rw [hR] at hc
                exact Except.noConfusion hc
      | other =>
          simp only [hA] at hc
          exact NegError.noConfusion (Except.error.inj hc)
    · intro hn
      exact absurd hok hn
  · intro st m hins hidx hlen
    exact ⟨_, by
      unfold applyModification
      rw [if_neg (by rintro ⟨_, h⟩; omega),
        if_neg (by rintro ⟨hne, _⟩; exact hne hins),
        if_neg (by omega)]
      simp only [hins]
      rw [if_neg (by omega)]⟩

/-- C7, witness: on an obligation with no sectors, a `Delete` at index 0 is
rejected with `errBadModificationIndex` while an `Insert` at index 0 with a
full sector succeeds. -/
theorem C7_index_precondition_witness :
    applyModification 4096 ⟨2, 3, 1⟩ 0 (fun _ => 42) (fun _ => none)
        (initModState soFix) ⟨.delete, 0, 0, []⟩ =
      .error .errBadModificationIndex ∧
    ∃ st2, applyModification 4096 ⟨2, 3, 1⟩ 0 (fun _ => 42) (fun _ => none)
      (initModState soFix) ⟨.insert, 0, 0, List.replicate 4096 0⟩ = .ok st2 :=
  ⟨((C7_index_precondition 4096 ⟨2, 3, 1⟩ 0 (fun _ => 42)
        (fun _ => none)).2.1 (initModState soFix)
        ⟨.delete, 0, 0, []⟩).mpr (by decide),
   (C7_index_precondition 4096 ⟨2, 3, 1⟩ 0 (fun _ => 42)
        (fun _ => none)).2.2 (initModState soFix)
        ⟨.insert, 0, 0, List.replicate 4096 0⟩ rfl rfl
        (by rw [List.length_replicate])⟩

/-! ## C2: failed iterations reject and do not touch durable state -/

/-- C2: whenever applying the modification batch fails, or the batch applies
but `verifyRevision` fails, the iteration sends exactly one negotiation
rejection carrying that error, returns that error, and never calls
`modifyStorageObligation` — the persisted sector set, accumulators and
revision transaction set are untouched. -/
theorem C2_failure_rejects_and_preserves (rsb sectorSize segmentSize : Nat)
    (ucHash : Nat → Nat) (merkleRoot : List Nat → Nat)
    (cachedRoot : Nat → List Nat → Nat) (settings : HostInternalSettings)
    (blockHeight : Nat) (readSector : Nat → Option (List Nat))
    (mkSignedTxn : FileContractRevision → Option Transaction)
    (finalIter : Bool) (so : storageObligation)
    (modifications : List RevisionAction) (revision : FileContractRevision)
    (e : NegError)
    (h : applyModifications sectorSize settings blockHeight merkleRoot
          readSector (initModState so) modifications = .error e ∨
        ∃ st, applyModifications sectorSize settings blockHeight merkleRoot
            readSector (initModState so) modifications = .ok st ∧
          verifyRevision rsb sectorSize segmentSize ucHash cachedRoot st.so
            revision blockHeight (st.storageRevenue + st.bandwidthRevenue)
            st.newCollateral = .error e) :
    managedRevisionIterationCore rsb sectorSize segmentSize ucHash merkleRoot
        cachedRoot settings blockHeight readSector mkSignedTxn finalIter so
        modifications revision =
      { sent := [.negotiationRejection e], persistedCall := none,
        result := .error e } := by
  unfold managedRevisionIterationCore
  rcases h with h1 | ⟨st, h1, h2⟩
  · simp only [h1]
  · simp only [h1, h2]

/-- C2, witness: a `Delete` on an empty sector list is answered with a
rejection carrying `errBadModificationIndex` and no persistence call. -/
theorem C2_failure_rejects_and_preserves_witness :
    managedRevisionIterationCore 144 4096 64 id (fun _ => 42) (fun _ _ => 0)
        ⟨2, 3, 1⟩ 0 (fun _ => none)
        (fun _ => some ⟨[], [9, 8]⟩) false soFix
        [⟨.delete, 0, 0, []⟩] fcrOld =
      { sent := [.negotiationRejection .errBadModificationIndex],
        persistedCall := none, result := .error .errBadModificationIndex } :=
  C2_failure_rejects_and_preserves 144 4096 64 id (fun _ => 42) (fun _ _ => 0)
    ⟨2, 3, 1⟩ 0 (fun _ => none) (fun _ => some ⟨[], [9, 8]⟩) false soFix
    [⟨.delete, 0, 0, []⟩] fcrOld .errBadModificationIndex (Or.inl rfl)

/-! ## C9: the committed revision transaction set is a singleton -/

/-- C9: whenever a revision iteration calls `modifyStorageObligation`, the
persisted obligation's `RevisionTransactionSet` is exactly the one-element
list holding the newly signed revision transaction — every previously
stored revision transaction is discarded. -/
theorem C9_persisted_revision_set_singleton (rsb sectorSize segmentSize : Nat)
    (ucHash : Nat → Nat) (merkleRoot : List Nat → Nat)
    (cachedRoot : Nat → List Nat → Nat) (settings : HostInternalSettings)
    (blockHeight : Nat) (readSector : Nat → Option (List Nat))
    (mkSignedTxn : FileContractRevision → Option Transaction)
    (finalIter : Bool) (so : storageObligation)
    (modifications : List RevisionAction) (revision : FileContractRevision)
    (pc : PersistCall)
    (h : (managedRevisionIterationCore rsb sectorSize segmentSize ucHash
        merkleRoot cachedRoot settings blockHeight readSector mkSignedTxn
        finalIter so modifications revision).persistedCall = some pc) :
    ∃ txn, mkSignedTxn revision = some txn ∧
      pc.so.RevisionTransactionSet = [txn] := by
  unfold managedRevisionIterationCore at h
  cases hA : applyModifications sectorSize settings blockHeight merkleRoot
      readSector (initModState so) modifications with
  | error e =>
      simp only [hA] at h
      exact Option.noConfusion h
  | ok st =>
      simp only [hA] at h
      cases hB : verifyRevision rsb sectorSize segmentSize ucHash cachedRoot
          st.so revision blockHeight (st.storageRevenue + st.bandwidthRevenue)
          st.newCollateral with
      | error e =>
          simp only [hB] at h
          exact Option.noConfusion h
      | ok u =>
          cases u
          simp only [hB] at h
          cases hC : mkSignedTxn revision with
          | none =>
              simp only [hC] at h
              exact Option.noConfusion h
          | some txn =>
              simp only [hC] at h
              refine ⟨txn, rfl, ?_⟩
              rw [← Option.some.inj h]

/-- The revision transaction the signature oracle returns in the C9
witness. -/
def txC9 : Transaction :=
  { FileContractRevisions := [], TransactionSignatures := [9, 8] }

/-- A proposed revision identical to `fcrOld` except for an increased
revision number: it passes `verifyRevision` on `soFix`. -/
def fcrNext : FileContractRevision := { fcrOld with NewRevisionNumber := 6 }

/-- The persistence call produced by the successful C9 witness run. -/
def pcC9 : PersistCall :=
  { so := { soFix with RevisionTransactionSet := [txC9] },
    sectorsRemoved := [], sectorsGained := [], gainedSectorData := [] }

/-- C9, witness: a successful empty-batch iteration persists an obligation
whose revision transaction set is exactly the newly signed transaction. -/
theorem C9_persisted_revision_set_singleton_witness :
    ∃ txn, (fun _ : FileContractRevision => some txC9) fcrNext = some txn ∧
      pcC9.so.RevisionTransactionSet = [txn] :=
  C9_persisted_revision_set_singleton 144 4096 64 id (fun _ => 42)
    (fun _ _ => 0) ⟨2, 3, 1⟩ 0 (fun _ => none) (fun _ => some txC9) false
    soFix [] fcrNext pcC9 rfl

/-! ## C5: the coin-balance validator -/

theorem coinInputSumLoop_ok (css : Nat → Option Nat) (bh : Nat) :
    ∀ (l : List Nat) (acc : Nat), (∀ pid ∈ l, (css pid).isSome) →
      Consensus.coinInputSumLoop css bh l acc =
        .ok (l.foldl (fun a pid => a + (css pid).getD 0) acc) := by
  intro l
  induction l with
  | nil => intro acc _; rfl
  | cons p ps ih =>
      intro acc hall
      have hp : (css p).isSome := hall p (by simp)
      obtain ⟨v, hv⟩ := Option.isSome_iff_exists.mp hp
      simp only [Consensus.coinInputSumLoop, hv, List.foldl_cons,
        Option.getD_some]
      exact ih (acc + v) (fun q hq => hall q (by simp [hq]))

theorem coinInputSumLoop_missing (css : Nat → Option Nat) (bh : Nat) :
    ∀ (l : List Nat) (acc : Nat), (∃ pid ∈ l, css pid = none) →
      ∃ pid, pid ∈ l ∧ css pid = none ∧
        Consensus.coinInputSumLoop css bh l acc =
          .error (.missingParent pid bh) := by
  intro l
  induction l with
  | nil =>
      intro acc h
      rcases h with ⟨pid, hmem, _⟩
      simp at hmem
  | cons p ps ih =>
      intro acc h
      cases hv : css p with
      | none =>
          exact ⟨p, by simp, hv, by simp [Consensus.coinInputSumLoop, hv]⟩
      | some v =>
          have h2 : ∃ pid ∈ ps, css pid = none := by
            rcases h with ⟨pid, hmem, hn⟩
            rcases List.mem_cons.mp hmem with rfl | hmem2
            · rw [hv] at hn; cases hn
            · exact ⟨pid, hmem2, hn⟩
          obtain ⟨pid, hmem, hn, hloop⟩ := ih (acc + v) h2
          exact ⟨pid, List.mem_cons_of_mem _ hmem, hn,
            by simp [Consensus.coinInputSumLoop, hv, hloop]⟩

theorem coinInputSumLoop_ok_zero (css : Nat → Option Nat) (bh : Nat)
    (l : List Nat) (hall : ∀ pid ∈ l, (css pid).isSome) :
    Consensus.coinInputSumLoop css bh l 0 =
      .ok (Consensus.resolvedInputSum css l) := by
  rw [coinInputSumLoop_ok css bh l 0 hall]
  rfl

/-- C5: `ValidateCoinOutputsAreBalanced` returns nil exactly when every coin
input's parent resolves through `UnspentCoinOutputGet` and the sum of the
resolved values equals `tx.CoinOutputSum()` (coin outputs plus miner fees);
an unresolved parent yields an error naming that parent ID and the
context's block height, and unequal sums yield an error stating the
direction of the imbalance together with both sums. -/
theorem C5_coin_balance (tx : Consensus.Transaction) (bh : Nat)
    (css : Nat → Option Nat) :
    (Consensus.ValidateCoinOutputsAreBalanced tx bh css = .ok () ↔
      ((∀ pid ∈ tx.CoinInputs, (css pid).isSome) ∧
        Consensus.resolvedInputSum css tx.CoinInputs =
          Consensus.CoinOutputSum tx)) ∧
    ((∃ pid ∈ tx.CoinInputs, css pid = none) →
      ∃ pid, pid ∈ tx.CoinInputs ∧ css pid = none ∧
        Consensus.ValidateCoinOutputsAreBalanced tx bh css =
          .error (.missingParent pid bh)) ∧
    ((∀ pid ∈ tx.CoinInputs, (css pid).isSome) →
      Consensus.resolvedInputSum css tx.CoinInputs <
        Consensus.CoinOutputSum tx →
      Consensus.ValidateCoinOutputsAreBalanced tx bh css =
        .error (.inputsLessThanOutputs
          (Consensus.resolvedInputSum css tx.CoinInputs)
          (Consensus.CoinOutputSum tx))) ∧
    ((∀ pid ∈ tx.CoinInputs, (css pid).isSome) →
      Consensus.CoinOutputSum tx <
        Consensus.resolvedInputSum css tx.CoinInputs →
      Consensus.ValidateCoinOutputsAreBalanced tx bh css =
        .error (.inputsGreaterThanOutputs
          (Consensus.resolvedInputSum css tx.CoinInputs)
          (Consensus.CoinOutputSum tx))) := by
  refine ⟨?_, ?_, ?_, ?_⟩
  · constructor
    · intro hok
      by_cases hall : ∀ pid ∈ tx.CoinInputs, (css pid).isSome
      · refine ⟨hall, ?_⟩
        simp only [Consensus.ValidateCoinOutputsAreBalanced,
          coinInputSumLoop_ok_zero css bh tx.CoinInputs hall] at hok
        by_cases hlt : Consensus.resolvedInputSum css tx.CoinInputs <
            Consensus.CoinOutputSum tx
        · rw [if_pos hlt] at hok
          exact Except.noConfusion hok
        · rw [if_neg hlt] at hok
          by_cases hgt : Consensus.resolvedInputSum css tx.CoinInputs >
              Consensus.CoinOutputSum tx
          · rw [if_pos hgt] at hok
            exact Except.noConfusion hok
          · omega
      · exfalso
        have hmiss : ∃ pid ∈ tx.CoinInputs, css pid = none := by
          push_neg at hall
          obtain ⟨pid, hmem, hns⟩ := hall
          refine ⟨pid, hmem, ?_⟩
          cases hv : css pid with
          | none => rfl
          | some v => rw [hv] at hns; simp at hns
        obtain ⟨pid, _, _, hloop⟩ :=
          coinInputSumLoop_missing css bh tx.CoinInputs 0 hmiss
        simp only [Consensus.ValidateCoinOutputsAreBalanced, hloop] at hok
        exact Except.noConfusion hok
    · rintro ⟨hall, hsum⟩
      simp only [Consensus.ValidateCoinOutputsAreBalanced,
        coinInputSumLoop_ok_zero css bh tx.CoinInputs hall]
      rw [if_neg (by omega), if_neg (by omega)]
  · intro hmiss
    obtain ⟨pid, hmem, hn, hloop⟩ :=
      coinInputSumLoop_missing css bh tx.CoinInputs 0 hmiss
    refine ⟨pid, hmem, hn, ?_⟩
    simp only [Consensus.ValidateCoinOutputsAreBalanced, hloop]
  · intro hall hlt
    simp only [Consensus.ValidateCoinOutputsAreBalanced,
      coinInputSumLoop_ok_zero css bh tx.CoinInputs hall]
    rw [if_pos hlt]
  · intro hall hgt
    simp only [Consensus.ValidateCoinOutputsAreBalanced,
      coinInputSumLoop_ok_zero css bh tx.CoinInputs hall]
    rw [if_neg (by omega), if_pos hgt]

/-- C5, witness: the spec's happy path — one coin input with parent value
100, one coin output of 90 and a miner fee of 10 — validates. -/
theorem C5_coin_balance_witness :
    Consensus.ValidateCoinOutputsAreBalanced ⟨[1], [90], [10]⟩ 5
      (fun pid => if pid = 1 then some 100 else none) = .ok () :=
  (C5_coin_balance ⟨[1], [90], [10]⟩ 5
    (fun pid => if pid = 1 then some 100 else none)).1.mpr
    ⟨by decide, by decide⟩

/-! ## C6: the collateral weight tie-break -/

/-- A host entry with zero adjusted prices apart from a contract price whose
adjusted value is 15, and collateral `c`. -/
def entryC6 (c : Nat) : Hostdb.hostEntry :=
  { HostExternalSettings :=
      { NetAddress := 0, StoragePrice := 0,
        ContractPrice := 15 * 6048 * 10000000000,
        UploadBandwidthPrice := 0, DownloadBandwidthPrice := 0,
        Collateral := c },
    PublicKey := [], Reliability := 1, Weight := 0, Online := false }

/-- C6 counterexample: two entries with identical prices and collateral 10
vs 20 whose tax fees floor differently (0 vs 1), so the total prices differ
(15 vs 16) and the 20-collateral weight is not exactly twice the
10-collateral weight. -/
theorem C6_weight_counterexample :
    Hostdb.calculateHostWeight (entryC6 20) ≠
      2 * Hostdb.calculateHostWeight (entryC6 10) := by
  decide

/-- C6 amended: for entries with identical prices and collateral 10 vs 20
whose computed `totalPrice` (including the tax fee) coincides — as in the
spec's tie-break scenario, where all adjusted prices and the fee are zero —
the 20-collateral entry has exactly twice the weight of the 10-collateral
entry (the collateral > 0 path). -/
theorem C6_weight_amended (e10 e20 : Hostdb.hostEntry)
    (hs : e10.HostExternalSettings.StoragePrice =
      e20.HostExternalSettings.StoragePrice)
    (hc : e10.HostExternalSettings.ContractPrice =
      e20.HostExternalSettings.ContractPrice)
    (hu : e10.HostExternalSettings.UploadBandwidthPrice =
      e20.HostExternalSettings.UploadBandwidthPrice)
    (hd : e10.HostExternalSettings.DownloadBandwidthPrice =
      e20.HostExternalSettings.DownloadBandwidthPrice)
    (h10 : e10.HostExternalSettings.Collateral = 10)
    (h20 : e20.HostExternalSettings.Collateral = 20)
    (htot : Hostdb.totalPrice e10 = Hostdb.totalPrice e20) :
    Hostdb.calculateHostWeight e20 = 2 * Hostdb.calculateHostWeight e10 := by
  unfold Hostdb.calculateHostWeight
  rw [← htot, h10, h20]
  rw [if_neg (show ¬(20 : Nat) = 0 by omega),
    if_neg (show ¬(10 : Nat) = 0 by omega)]
  by_cases h0 : Hostdb.totalPrice e10 = 0
  · rw [if_pos h0]
    ring
  · rw [if_neg h0]
    ring

/-- The all-zero-price entry with collateral `c` used in the C6 witness. -/
def entryC6zero (c : Nat) : Hostdb.hostEntry :=
  { HostExternalSettings :=
      { NetAddress := 0, StoragePrice := 0, ContractPrice := 0,
        UploadBandwidthPrice := 0, DownloadBandwidthPrice := 0,
        Collateral := c },
    PublicKey := [], Reliability := 1, Weight := 0, Online := false }

/-- C6 amended, witness: with all prices zero the fee floors to zero for
both entries, the total prices agree, and the weights are exactly 2×. -/
theorem C6_weight_amended_witness :
    Hostdb.calculateHostWeight (entryC6zero 20) =
      2 * Hostdb.calculateHostWeight (entryC6zero 10) :=
  C6_weight_amended (entryC6zero 10) (entryC6zero 20) rfl rfl rfl rfl rfl rfl
    (by decide)

/-! ## Association-list lemmas for the hostdb model -/

theorem mem_eraseA {m : List (Nat × Hostdb.hostEntry)} {a : Nat}
    {p : Nat × Hostdb.hostEntry} (h : p ∈ Hostdb.eraseA m a) :
    p ∈ m ∧ p.1 ≠ a := by
  unfold Hostdb.eraseA at h
  have h2 := List.mem_filter.mp h
  refine ⟨h2.1, ?_⟩
  have h3 := h2.2
  simpa using h3

theorem mem_insertA {m : List (Nat × Hostdb.hostEntry)} {a : Nat}
    {e : Hostdb.hostEntry} {p : Nat × Hostdb.hostEntry}
    (h : p ∈ Hostdb.insertA m a e) :
    p = (a, e) ∨ (p ∈ m ∧ p.1 ≠ a) := by
  unfold Hostdb.insertA at h
  rcases List.mem_cons.mp h with h1 | h1
  · exact Or.inl h1
  · exact Or.inr (mem_eraseA h1)

theorem lookupA_insertA_self (m : List (Nat × Hostdb.hostEntry)) (a : Nat)
    (e : Hostdb.hostEntry) :
    Hostdb.lookupA (Hostdb.insertA m a e) a = some e := by
  simp [Hostdb.lookupA, Hostdb.insertA, List.find?]

theorem lookupA_eraseA_self (m : List (Nat × Hostdb.hostEntry)) (a : Nat) :
    Hostdb.lookupA (Hostdb.eraseA m a) a = none := by
  unfold Hostdb.lookupA Hostdb.eraseA
  induction m with
  | nil => rfl
  | cons p ps ih =>
      by_cases hp : p.1 = a
      · simpa [List.filter_cons, hp] using ih
      · simpa [List.filter_cons, List.find?, hp] using ih

theorem length_eraseA_le (m : List (Nat × Hostdb.hostEntry)) (a : Nat) :
    (Hostdb.eraseA m a).length ≤ m.length :=
  List.length_filter_le _ _

theorem length_insertA (m : List (Nat × Hostdb.hostEntry)) (a : Nat)
    (e : Hostdb.hostEntry) :
    (Hostdb.insertA m a e).length = (Hostdb.eraseA m a).length + 1 := by
  simp [Hostdb.insertA]

/-! ## C8 helper lemmas -/

theorem decrement_preserves_pos (db : Hostdb.HostDB) (addr penalty : Nat)
    (hall : ∀ p ∈ db.allHosts, 0 < p.2.Reliability) :
    ∀ p ∈ (Hostdb.decrementReliability db addr penalty).allHosts,
      0 < p.2.Reliability := by
  unfold Hostdb.decrementReliability
  cases hl : Hostdb.lookupA db.allHosts addr with
  | none => simpa using hall
  | some entry =>
      simp only []
      by_cases hz : entry.Reliability - penalty = 0
      · rw [if_pos (by simpa using hz)]
        intro p hp
        have h2 := mem_eraseA hp
        rcases mem_insertA h2.1 with h3 | h3
        · exact absurd (by rw [h3]) h2.2
        · exact hall p h3.1
      · rw [if_neg (by simpa using hz)]
        intro p hp
        rcases mem_insertA hp with h3 | h3
        · rw [h3]
          simpa using Nat.pos_of_ne_zero hz
        · exact hall p h3.1

theorem updateEntry_preserves_pos (db : Hostdb.HostDB)
    (entry : Hostdb.hostEntry) (ns : Hostdb.HostExternalSettings)
    (pf : Bool)
    (hall : ∀ p ∈ db.allHosts, 0 < p.2.Reliability)
    (hentry : 0 < entry.Reliability) :
    ∀ p ∈ (Hostdb.managedUpdateEntry db entry ns pf).allHosts,
      0 < p.2.Reliability := by
  unfold Hostdb.managedUpdateEntry
  cases hl : Hostdb.lookupA db.allHosts entry.NetAddress with
  | none =>
      simp only []
      have hall1 : ∀ p ∈ (Hostdb.insertA db.allHosts entry.NetAddress
          entry), 0 < p.2.Reliability := by
        intro p hp
        rcases mem_insertA hp with h3 | h3
        · rw [h3]; exact hentry
        · exact hall p h3.1
      cases pf with
      | true => simpa using hall1
      | false =>
          simp only [if_neg Bool.false_ne_true]
          intro p hp
          rcases mem_insertA hp with h3 | h3
          · rw [h3]
            simp [Hostdb.MaxReliability]
          · exact hall1 p h3.1
  | some priorHost =>
      simp only []
      cases pf with
      | true =>
          simp only [if_pos rfl]
          by_cases hkey : priorHost.PublicKey = entry.PublicKey
          · rw [if_pos hkey]
            exact decrement_preserves_pos db entry.NetAddress
              Hostdb.UnreachablePenalty hall
          · rw [if_neg hkey]
            exact hall
      | false =>
          simp only [if_neg Bool.false_ne_true]
          intro p hp
          rcases mem_insertA hp with h3 | h3
          · rw [h3]
            simp [Hostdb.MaxReliability]
          · exact hall p h3.1

theorem updateEntry_failed_match_eq_decrement (db : Hostdb.HostDB)
    (entry : Hostdb.hostEntry) (ns : Hostdb.HostExternalSettings)
    (priorHost : Hostdb.hostEntry)
    (hprior : Hostdb.lookupA db.allHosts entry.NetAddress = some priorHost)
    (hkey : priorHost.PublicKey = entry.PublicKey) :
    Hostdb.managedUpdateEntry db entry ns true =
      Hostdb.decrementReliability db entry.NetAddress
        Hostdb.UnreachablePenalty := by
  unfold Hostdb.managedUpdateEntry
  simp [hprior, hkey]

theorem decrement_behavior (db : Hostdb.HostDB) (addr : Nat)
    (priorHost : Hostdb.hostEntry)
    (hprior : Hostdb.lookupA db.allHosts addr = some priorHost) :
    Hostdb.lookupA
        (Hostdb.decrementReliability db addr
          Hostdb.UnreachablePenalty).activeHosts addr = none ∧
    (priorHost.Reliability ≤ Hostdb.UnreachablePenalty →
      Hostdb.lookupA
        (Hostdb.decrementReliability db addr
          Hostdb.UnreachablePenalty).allHosts addr = none) ∧
    (Hostdb.UnreachablePenalty < priorHost.Reliability →
      Hostdb.lookupA
          (Hostdb.decrementReliability db addr
            Hostdb.UnreachablePenalty).allHosts addr =
        some { priorHost with
          Reliability := priorHost.Reliability - Hostdb.UnreachablePenalty,
          Online := false }) := by
  unfold Hostdb.decrementReliability
  rw [hprior]
  simp only []
  by_cases hz : priorHost.Reliability - Hostdb.UnreachablePenalty = 0
  · rw [if_pos (by simpa using hz)]
    refine ⟨lookupA_eraseA_self _ _, fun _ => lookupA_eraseA_self _ _,
      fun hlt => ?_⟩
    exfalso
    unfold Hostdb.UnreachablePenalty at hz hlt
    omega
  · rw [if_neg (by simpa using hz)]
    refine ⟨lookupA_eraseA_self _ _, fun hle => ?_, fun _ =>
      lookupA_insertA_self _ _ _⟩
    exfalso
    unfold Hostdb.UnreachablePenalty at hz hle
    omega

theorem decrement_active_length (db : Hostdb.HostDB) (addr penalty : Nat) :
    (Hostdb.decrementReliability db addr penalty).activeHosts.length ≤
      db.activeHosts.length := by
  unfold Hostdb.decrementReliability
  cases hl : Hostdb.lookupA db.allHosts addr with
  | none => exact le_refl _
  | some entry =>
      simp only []
      by_cases hz : entry.Reliability - penalty = 0
      · rw [if_pos (by simpa using hz)]
        exact length_eraseA_le _ _
      · rw [if_neg (by simpa using hz)]
        exact length_eraseA_le _ _

theorem updateEntry_active_length (db : Hostdb.HostDB)
    (entry : Hostdb.hostEntry) (ns : Hostdb.HostExternalSettings) (pf : Bool)
    (hlen : db.activeHosts.length ≤ Hostdb.maxActiveHosts) :
    (Hostdb.managedUpdateEntry db entry ns pf).activeHosts.length ≤
      Hostdb.maxActiveHosts := by
  unfold Hostdb.managedUpdateEntry
  cases hl : Hostdb.lookupA db.allHosts entry.NetAddress with
  | none =>
      simp only []
      cases pf with
      | true => simpa using hlen
      | false =>
          simp only [if_neg Bool.false_ne_true]
          by_cases hlt : (Hostdb.eraseA db.allHosts entry.NetAddress).length <
              Hostdb.maxActiveHosts
          · by_cases hlt2 :
                (Hostdb.eraseA db.activeHosts entry.NetAddress).length <
                  Hostdb.maxActiveHosts
            · rw [if_pos hlt2]
              rw [length_insertA]
              have := length_eraseA_le
                (Hostdb.eraseA db.activeHosts entry.NetAddress)
                entry.NetAddress
              omega
            · rw [if_neg hlt2]
              have := length_eraseA_le db.activeHosts entry.NetAddress
              omega
          · by_cases hlt2 :
                (Hostdb.eraseA db.activeHosts entry.NetAddress).length <
                  Hostdb.maxActiveHosts
            · rw [if_pos hlt2]
              rw [length_insertA]
              have := length_eraseA_le
                (Hostdb.eraseA db.activeHosts entry.NetAddress)
                entry.NetAddress
              omega
            · rw [if_neg hlt2]
              have := length_eraseA_le db.activeHosts entry.NetAddress
              omega
  | some priorHost =>
      simp only []
      cases pf with
      | true =>
          simp only [if_pos rfl]
          by_cases hkey : priorHost.PublicKey = entry.PublicKey
          · rw [if_pos hkey]
            exact le_trans (decrement_active_length db entry.NetAddress
              Hostdb.UnreachablePenalty) hlen
          · rw [if_neg hkey]
            exact hlen
      | false =>
          simp only [if_neg Bool.false_ne_true]
          by_cases hlt2 :
              (Hostdb.eraseA db.activeHosts entry.NetAddress).length <
                Hostdb.maxActiveHosts
          · rw [if_pos hlt2]
            rw [length_insertA]
            have := length_eraseA_le
              (Hostdb.eraseA db.activeHosts entry.NetAddress)
              entry.NetAddress
            omega
          · rw [if_neg hlt2]
            have := length_eraseA_le db.activeHosts entry.NetAddress
            omega

theorem updateEntry_active_insert_fields (db : Hostdb.HostDB)
    (entry : Hostdb.hostEntry) (ns : Hostdb.HostExternalSettings)
    (e2 : Hostdb.hostEntry)
    (h : Hostdb.lookupA
        (Hostdb.managedUpdateEntry db entry ns false).activeHosts
        entry.NetAddress = some e2) :
    e2.Online = true ∧ e2.Reliability = Hostdb.MaxReliability := by
  unfold Hostdb.managedUpdateEntry at h
  cases hl : Hostdb.lookupA db.allHosts entry.NetAddress with
  | none =>
      rw [hl] at h
      simp only [if_neg Bool.false_ne_true] at h
      by_cases hlt :
          (Hostdb.eraseA db.activeHosts entry.NetAddress).length <
            Hostdb.maxActiveHosts
      · rw [if_pos hlt, lookupA_insertA_self] at h
        rw [← Option.some.inj h]
        exact ⟨rfl, rfl⟩
      · rw [if_neg hlt, lookupA_eraseA_self] at h
        exact Option.noConfusion h
  | some priorHost =>
      rw [hl] at h
      simp only [if_neg Bool.false_ne_true] at h
      by_cases hlt :
          (Hostdb.eraseA db.activeHosts entry.NetAddress).length <
            Hostdb.maxActiveHosts
      · rw [if_pos hlt, lookupA_insertA_self] at h
        rw [← Option.some.inj h]
        exact ⟨rfl, rfl⟩
      · rw [if_neg hlt, lookupA_eraseA_self] at h
        exact Option.noConfusion h

/-! ## C8: hostdb scanner invariants -/

/-- C8: `managedUpdateEntry` (i) keeps every entry retained in `allHosts` at
reliability > 0, (ii) on a failed probe of a known host with matching
public key it reduces to `decrementReliability` with `UnreachablePenalty`,
which (iii) removes the host from `activeHosts`, decrements the stored
reliability, and deletes the host from `allHosts` exactly when the
reliability reaches zero, (iv) never grows `activeHosts` beyond
`maxActiveHosts`, and (v) every entry (re-)inserted into `activeHosts`
carries `online = true` and `reliability = MaxReliability`. -/
theorem C8_scanner_invariants :
    (∀ (db : Hostdb.HostDB) (entry : Hostdb.hostEntry)
        (ns : Hostdb.HostExternalSettings) (pf : Bool),
      (∀ p ∈ db.allHosts, 0 < p.2.Reliability) → 0 < entry.Reliability →
      ∀ p ∈ (Hostdb.managedUpdateEntry db entry ns pf).allHosts,
        0 < p.2.Reliability) ∧
    (∀ (db : Hostdb.HostDB) (entry : Hostdb.hostEntry)
        (ns : Hostdb.HostExternalSettings) (priorHost : Hostdb.hostEntry),
      Hostdb.lookupA db.allHosts entry.NetAddress = some priorHost →
      priorHost.PublicKey = entry.PublicKey →
      Hostdb.managedUpdateEntry db entry ns true =
        Hostdb.decrementReliability db entry.NetAddress
          Hostdb.UnreachablePenalty) ∧
    (∀ (db : Hostdb.HostDB) (addr : Nat) (priorHost : Hostdb.hostEntry),
      Hostdb.lookupA db.allHosts addr = some priorHost →
      Hostdb.lookupA
          (Hostdb.decrementReliability db addr
            Hostdb.UnreachablePenalty).activeHosts addr = none ∧
      (priorHost.Reliability ≤ Hostdb.UnreachablePenalty →
        Hostdb.lookupA
          (Hostdb.decrementReliability db addr
            Hostdb.UnreachablePenalty).allHosts addr = none) ∧
      (Hostdb.UnreachablePenalty < priorHost.Reliability →
        Hostdb.lookupA
            (Hostdb.decrementReliability db addr
              Hostdb.UnreachablePenalty).allHosts addr =
          some { priorHost with
            Reliability := priorHost.Reliability - Hostdb.UnreachablePenalty,
            Online := false })) ∧
    (∀ (db : Hostdb.HostDB) (entry : Hostdb.hostEntry)
        (ns : Hostdb.HostExternalSettings) (pf : Bool),
      db.activeHosts.length ≤ Hostdb.maxActiveHosts →
      (Hostdb.managedUpdateEntry db entry ns pf).activeHosts.length ≤
        Hostdb.maxActiveHosts) ∧
    (∀ (db : Hostdb.HostDB) (entry : Hostdb.hostEntry)
        (ns : Hostdb.HostExternalSettings) (e2 : Hostdb.hostEntry),
      Hostdb.lookupA
          (Hostdb.managedUpdateEntry db entry ns false).activeHosts
          entry.NetAddress = some e2 →
      e2.Online = true ∧ e2.Reliability = Hostdb.MaxReliability) :=
  ⟨updateEntry_preserves_pos, updateEntry_failed_match_eq_decrement,
    decrement_behavior, updateEntry_active_length,
    updateEntry_active_insert_fields⟩

/-- The external settings used by the hostdb witnesses. -/
def nsC8 : Hostdb.HostExternalSettings :=
  { NetAddress := 7, StoragePrice := 0, ContractPrice := 0,
    UploadBandwidthPrice := 0, DownloadBandwidthPrice := 0, Collateral := 0 }

/-- A known host entry at reliability 1 (the spec's scanner-penalty
scenario). -/
def entryR1 : Hostdb.hostEntry :=
  { HostExternalSettings := nsC8, PublicKey := [3], Reliability := 1,
    Weight := 0, Online := true }

/-- A hostdb holding `entryR1` in both maps. -/
def dbC8 : Hostdb.HostDB :=
  { allHosts := [(7, entryR1)], activeHosts := [(7, entryR1)] }

/-- C8, witness: the spec's scanner-penalty scenario — reliability 1,
matching key, failed probe — evicts the host from both `allHosts` and
`activeHosts`. -/
theorem C8_scanner_invariants_witness :
    Hostdb.lookupA (Hostdb.managedUpdateEntry dbC8 entryR1 nsC8
        true).allHosts 7 = none ∧
    Hostdb.lookupA (Hostdb.managedUpdateEntry dbC8 entryR1 nsC8
        true).activeHosts 7 = none := by
  have h2 := C8_scanner_invariants.2.1 dbC8 entryR1 nsC8 entryR1 rfl rfl
  have h3 := C8_scanner_invariants.2.2.1 dbC8 7 entryR1 rfl
  constructor
  · rw [h2]
    exact h3.2.1 (by decide)
  · rw [h2]
    exact h3.1

/-! ## C10: failed probe of an unknown host -/

/-- C10: on a failed probe of a host whose address is not in `allHosts`,
`managedUpdateEntry` only inserts the probed entry — reliability unchanged,
no penalty — and the penalty path is taken only when a prior entry existed;
with a prior entry whose public-key bytes differ from the probed entry's,
the state is left entirely unchanged. -/
theorem C10_unknown_host_no_penalty :
    (∀ (db : Hostdb.HostDB) (entry : Hostdb.hostEntry)
        (ns : Hostdb.HostExternalSettings),
      Hostdb.lookupA db.allHosts entry.NetAddress = none →
      Hostdb.managedUpdateEntry db entry ns true =
        { db with allHosts :=
            Hostdb.insertA db.allHosts entry.NetAddress entry } ∧
      Hostdb.lookupA (Hostdb.managedUpdateEntry db entry ns
          true).allHosts entry.NetAddress = some entry) ∧
    (∀ (db : Hostdb.HostDB) (entry : Hostdb.hostEntry)
        (ns : Hostdb.HostExternalSettings) (priorHost : Hostdb.hostEntry),
      Hostdb.lookupA db.allHosts entry.NetAddress = some priorHost →
      priorHost.PublicKey ≠ entry.PublicKey →
      Hostdb.managedUpdateEntry db entry ns true = db) := by
  constructor
  · intro db entry ns h
    have ha : Hostdb.managedUpdateEntry db entry ns true =
        { db with allHosts :=
            Hostdb.insertA db.allHosts entry.NetAddress entry } := by
      unfold Hostdb.managedUpdateEntry
      simp [h]
    refine ⟨ha, ?_⟩
    rw [ha]
    exact lookupA_insertA_self _ _ _
  · intro db entry ns priorHost h hkey
    unfold Hostdb.managedUpdateEntry
    simp [h, hkey]

/-- A host entry at an address unknown to `dbC8`. -/
def entryNew : Hostdb.hostEntry :=
  { HostExternalSettings := { nsC8 with NetAddress := 9 }, PublicKey := [4],
    Reliability := 5, Weight := 0, Online := false }

/-- C10, witness: a failed probe of the unknown address 9 inserts the entry
with reliability 5 untouched. -/
theorem C10_unknown_host_no_penalty_witness :
    Hostdb.managedUpdateEntry dbC8 entryNew nsC8 true =
      { dbC8 with allHosts :=
          Hostdb.insertA dbC8.allHosts entryNew.NetAddress entryNew } ∧
    Hostdb.lookupA (Hostdb.managedUpdateEntry dbC8 entryNew nsC8
        true).allHosts entryNew.NetAddress = some entryNew :=
  C10_unknown_host_no_penalty.1 dbC8 entryNew nsC8 rfl

end Rivine
